import Mathlib

/-!
Verification of the micro-mood-timeline core against its specification.

The definitions below are a shallow embedding of the repository's core modules:

* `src/stores/moodStore.ts` — the Local Optimistic Ledger (Zustand store): state
  `MoodState` and the actions `addEntry`, `updateEntry`, `deleteEntry`,
  `confirmEntry`, `rejectEntry`, `setEntries`, `addRealtimeEntry`.
* `src/api/mockServer.ts` — the Remote Simulator and Event Bus: `getAll`,
  `getById`, `serverCreate`, `serverUpdate`, `serverDelete`, `getToday`,
  `getStats`, and `emitTrace` for `mockEventEmitter.emit`.

Environment-dependent inputs of the source (the generated uuid, `Date.now()`,
the local-midnight timestamp computed from `new Date()`) are passed as explicit
parameters.  Machine numbers are modelled as `Int`/`Nat`/`Rat`; JavaScript
exceptions are modelled with `Except`/`Option`.
-/

namespace MicroMood

/-- Mood categories: the fixed eight-value enumeration of `MoodCategory` in
`src/types/index.ts`. -/
inductive MoodCategory
  | calm
  | happy
  | energetic
  | anxious
  | tired
  | focused
  | stressed
  | grateful
deriving DecidableEq

/-- A mood entry (`MoodEntry` in `src/types/index.ts`): opaque id, intensity
level (1..5 in the source type), category, optional note, and creation time in
milliseconds since epoch.  The optional `userId` field is never read by the
core modules and is omitted. -/
structure MoodEntry where
  id : String
  level : Nat
  category : MoodCategory
  note : Option String
  timestamp : Int
deriving DecidableEq

/-- The Ledger state held by the Zustand store in `src/stores/moodStore.ts`
(`MoodState`).  `pending` embeds the JavaScript `Map<string, MoodEntry>` as an
association list in insertion order, which is the iteration order of a JS Map. -/
structure MoodState where
  entries : List MoodEntry
  pending : List (String × MoodEntry)
  isLoading : Bool
  isSyncing : Bool
  error : Option String
  lastSyncAt : Option Int
deriving DecidableEq

/-- JavaScript `Map.set`: if the key is already present its value is updated in
place (keeping its position), otherwise the pair is appended at the end. -/
def mapSet (m : List (String × MoodEntry)) (k : String) (v : MoodEntry) :
    List (String × MoodEntry) :=
  if m.any (fun p => decide (p.1 = k)) then
    m.map (fun p => if p.1 = k then (k, v) else p)
  else
    m ++ [(k, v)]

/-- JavaScript `Map.delete`: removes the pair with the given key, if any. -/
def mapDelete (m : List (String × MoodEntry)) (k : String) :
    List (String × MoodEntry) :=
  m.filter (fun p => decide (p.1 ≠ k))

/-- Ledger action `addEntry` (src/stores/moodStore.ts, lines 74-90): builds the
optimistic entry with temporary id `temp-` ++ u — where `u` is the uuid the
source generates with `uuid()` — and timestamp `now` (the source uses
`Date.now()`), unshifts it onto `entries`, records it in `pendingEntries`, and
returns it. -/
def addEntry (s : MoodState) (u : String) (category : MoodCategory) (level : Nat)
    (note : Option String) (now : Int) : MoodState × MoodEntry :=
  let tempId : String := "temp-" ++ u
  let entry : MoodEntry := ⟨tempId, level, category, note, now⟩
  ({ s with
      entries := entry :: s.entries,
      pending := mapSet s.pending tempId entry },
   entry)

/-- Ledger action `rejectEntry` (src/stores/moodStore.ts, lines 118-124):
removes every entry whose id is the temporary id, drops the id from
`pendingEntries`, and sets the store error field to the given message. -/
def rejectEntry (s : MoodState) (tempId : String) (msg : String) : MoodState :=
  { s with
      entries := s.entries.filter (fun e => decide (e.id ≠ tempId)),
      pending := mapDelete s.pending tempId,
      error := some msg }

/-- C2: for every Ledger state, a create (`addEntry`, whose returned entry
carries the fresh temporary id `temp-` ++ u) followed by `rejectEntry` on that
temporary id leaves the entries list exactly as it was before the create and
sets the error field to the provided message.  Freshness of the temporary id
is the hypothesis `hfresh`. -/
theorem addEntry_rejectEntry_rollback (s : MoodState) (u : String)
    (category : MoodCategory) (level : Nat) (note : Option String) (now : Int)
    (msg : String) (hfresh : ∀ e ∈ s.entries, e.id ≠ "temp-" ++ u) :
    (addEntry s u category level note now).2.id = "temp-" ++ u
      ∧ (rejectEntry (addEntry s u category level note now).1
          ((addEntry s u category level note now).2.id) msg).entries = s.entries
      ∧ (rejectEntry (addEntry s u category level note now).1
          ((addEntry s u category level note now).2.id) msg).error = some msg := by
  refine ⟨rfl, ?_, rfl⟩
  show List.filter (fun e => decide (e.id ≠ "temp-" ++ u))
      (MoodEntry.mk ("temp-" ++ u) level category note now :: s.entries) = s.entries
  rw [List.filter_cons_of_neg (by simp)]
  exact List.filter_eq_self.mpr (fun e he => by simpa using hfresh e he)

/-- Example Ledger state used by concrete witnesses. -/
def exState : MoodState :=
  { entries := [⟨"a1", 3, MoodCategory.calm, none, 50⟩],
    pending := [],
    isLoading := false,
    isSyncing := false,
    error := none,
    lastSyncAt := none }

/-- Witness for C2 at a concrete state, uuid and message. -/
theorem addEntry_rejectEntry_rollback_witness :
    (addEntry exState "u1" MoodCategory.happy 4 none 100).2.id = "temp-" ++ "u1"
      ∧ (rejectEntry (addEntry exState "u1" MoodCategory.happy 4 none 100).1
          ((addEntry exState "u1" MoodCategory.happy 4 none 100).2.id) "boom").entries
            = exState.entries
      ∧ (rejectEntry (addEntry exState "u1" MoodCategory.happy 4 none 100).1
          ((addEntry exState "u1" MoodCategory.happy 4 none 100).2.id) "boom").error
            = some "boom" :=
  addEntry_rejectEntry_rollback exState "u1" MoodCategory.happy 4 none 100 "boom"
    (by decide)

/-- Replaces the first entry whose id equals `tid` with `c`, leaving the list
unchanged when no entry matches.  This embeds `findIndex` followed by the
assignment `state.entries[index] = confirmedEntry` performed by `confirmEntry`
(src/stores/moodStore.ts, lines 108-116): `findIndex` returns the first
matching index or -1, and the assignment is skipped at -1. -/
def replaceFirstById (l : List MoodEntry) (tid : String) (c : MoodEntry) :
    List MoodEntry :=
  match l with
  | [] => []
  | e :: rest => if e.id = tid then c :: rest else e :: replaceFirstById rest tid c

/-- Ledger action `confirmEntry` (src/stores/moodStore.ts, lines 108-116):
replaces the entry at the temporary id's position with the server-confirmed
entry (when present) and drops the temporary id from `pendingEntries`. -/
def confirmEntry (s : MoodState) (tempId : String) (confirmed : MoodEntry) :
    MoodState :=
  { s with
      entries := replaceFirstById s.entries tempId confirmed,
      pending := mapDelete s.pending tempId }

theorem replaceFirstById_of_no_match (l : List MoodEntry) (tid : String)
    (c : MoodEntry) (h : ∀ e ∈ l, e.id ≠ tid) : replaceFirstById l tid c = l := by
  induction l with
  | nil => rfl
  | cons e rest ih =>
    simp only [replaceFirstById, if_neg (h e (by simp))]
    rw [ih (fun x hx => h x (by simp [hx]))]

theorem mapDelete_idem (m : List (String × MoodEntry)) (k : String) :
    mapDelete (mapDelete m k) k = mapDelete m k := by
  simp [mapDelete, List.filter_filter]

theorem mapDelete_not_mem (m : List (String × MoodEntry)) (k : String) :
    ∀ p ∈ mapDelete m k, p.1 ≠ k := by
  intro p hp
  simp only [mapDelete, List.mem_filter, decide_eq_true_eq] at hp
  exact hp.2

theorem replaceFirstById_idem (l : List MoodEntry) (t : String) (c : MoodEntry)
    (h : l.countP (fun e => decide (e.id = t)) ≤ 1) :
    replaceFirstById (replaceFirstById l t c) t c = replaceFirstById l t c := by
  induction l with
  | nil => rfl
  | cons e rest ih =>
    by_cases he : e.id = t
    · have hcnt : rest.countP (fun e => decide (e.id = t)) = 0 := by
        rw [List.countP_cons] at h
        have hd : (decide (e.id = t)) = true := by simp [he]
        rw [hd] at h
        have h1 : rest.countP (fun e => decide (e.id = t)) + 1 ≤ 1 := by
          simpa using h
        omega
      have hrest : ∀ x ∈ rest, x.id ≠ t := by
        intro x hx
        have := List.countP_eq_zero.mp hcnt x hx
        simpa using this
      simp only [replaceFirstById, if_pos he]
      by_cases hc : c.id = t
      · simp [replaceFirstById, hc]
      · simp only [replaceFirstById, if_neg hc]
        rw [replaceFirstById_of_no_match rest t c hrest]
    · have hcnt : rest.countP (fun e => decide (e.id = t)) ≤ 1 := by
        rw [List.countP_cons] at h
        omega
      simp only [replaceFirstById, if_neg he]
      rw [ih hcnt]

/-- C3: confirming the same temporary id twice with the same confirmed entry is
idempotent — the second call has no additional effect — and the first call
removes the temporary id from pending tracking.  The state is assumed to hold
a pending entry under `t` and at most one entry with id `t` (the data-model
invariant: at most one Ledger entry exists per temporary id). -/
theorem confirmEntry_idempotent (s : MoodState) (t : String) (c e₀ : MoodEntry)
    (hpend : (t, e₀) ∈ s.pending)
    (huniq : s.entries.countP (fun e => decide (e.id = t)) ≤ 1) :
    confirmEntry (confirmEntry s t c) t c = confirmEntry s t c
      ∧ ∀ p ∈ (confirmEntry s t c).pending, p.1 ≠ t := by
  obtain ⟨entries, pending, il, isy, err, lsa⟩ := s
  refine ⟨?_, mapDelete_not_mem pending t⟩
  simp only [confirmEntry, MoodState.mk.injEq, and_true, true_and]
  exact ⟨replaceFirstById_idem entries t c huniq, mapDelete_idem pending t⟩

/-- Example Ledger state holding one pending optimistic entry, for witnesses. -/
def exPendingEntry : MoodEntry := ⟨"temp-u1", 4, MoodCategory.happy, none, 100⟩

/-- Example confirmed entry returned by the server, for witnesses. -/
def exConfirmed : MoodEntry := ⟨"srv-1", 4, MoodCategory.happy, none, 100⟩

/-- Example Ledger state containing `exPendingEntry` both in the entries list
and in pending tracking. -/
def exStateP : MoodState :=
  { entries := [exPendingEntry, ⟨"a1", 3, MoodCategory.calm, none, 50⟩],
    pending := [("temp-u1", exPendingEntry)],
    isLoading := false,
    isSyncing := false,
    error := none,
    lastSyncAt := none }

/-- Witness for C3 at a concrete state and confirmed entry. -/
theorem confirmEntry_idempotent_witness :
    confirmEntry (confirmEntry exStateP "temp-u1" exConfirmed) "temp-u1" exConfirmed
        = confirmEntry exStateP "temp-u1" exConfirmed
      ∧ ∀ p ∈ (confirmEntry exStateP "temp-u1" exConfirmed).pending, p.1 ≠ "temp-u1" :=
  confirmEntry_idempotent exStateP "temp-u1" exConfirmed exPendingEntry
    (by decide) (by decide)

/-- Ledger action `addRealtimeEntry` (src/stores/moodStore.ts, lines 134-141):
unshifts the entry onto `entries` only when no existing entry carries its id
(the dedup guard `!state.entries.some((e) => e.id === entry.id)`); otherwise the
state is unchanged. -/
def addRealtimeEntry (s : MoodState) (entry : MoodEntry) : MoodState :=
  if s.entries.any (fun e => decide (e.id = entry.id)) then s
  else { s with entries := entry :: s.entries }

/-- C4: ingesting the same confirmed entry twice leaves exactly one entry with
its id in the Ledger, and the entry is inserted at the head exactly when its id
is not already present.  The hypothesis is the data-model invariant that the
starting state holds at most one entry with that id. -/
theorem addRealtimeEntry_dedup (s : MoodState) (c : MoodEntry)
    (h : s.entries.countP (fun e => decide (e.id = c.id)) ≤ 1) :
    ((addRealtimeEntry (addRealtimeEntry s c) c).entries.countP
        (fun e => decide (e.id = c.id)) = 1)
      ∧ ((∀ e ∈ s.entries, e.id ≠ c.id) → (addRealtimeEntry s c).entries = c :: s.entries)
      ∧ ((∃ e ∈ s.entries, e.id = c.id) → addRealtimeEntry s c = s) := by
  by_cases hin : s.entries.any (fun e => decide (e.id = c.id)) = true
  · have hs : addRealtimeEntry s c = s := by
      simp only [addRealtimeEntry, if_pos hin]
    have hpos : 0 < s.entries.countP (fun e => decide (e.id = c.id)) := by
      rcases List.any_eq_true.mp hin with ⟨x, hx, hxx⟩
      exact List.countP_pos_iff.mpr ⟨x, hx, hxx⟩
    refine ⟨?_, ?_, fun _ => hs⟩
    · rw [hs, hs]
      omega
    · intro hnone
      rcases List.any_eq_true.mp hin with ⟨x, hx, hxx⟩
      exact absurd (by simpa using hxx) (hnone x hx)
  · have hzero : s.entries.countP (fun e => decide (e.id = c.id)) = 0 := by
      apply List.countP_eq_zero.mpr
      intro x hx hxx
      exact hin (List.any_eq_true.mpr ⟨x, hx, hxx⟩)
    have h1 : addRealtimeEntry s c = { s with entries := c :: s.entries } := by
      simp only [addRealtimeEntry, if_neg hin]
    have hin2 : (c :: s.entries).any (fun e => decide (e.id = c.id)) = true :=
      List.any_eq_true.mpr ⟨c, by simp, by simp⟩
    have hproj : ({ s with entries := c :: s.entries } : MoodState).entries
        = c :: s.entries := rfl
    have h2 : addRealtimeEntry { s with entries := c :: s.entries } c
        = { s with entries := c :: s.entries } := by
      simp only [addRealtimeEntry, hproj, if_pos hin2]
    refine ⟨?_, fun _ => by rw [h1], ?_⟩
    · rw [h1, h2, hproj, List.countP_cons, hzero]
      simp
    · intro hex
      rcases hex with ⟨x, hx, hxx⟩
      exact absurd hzero (by
        have : 0 < s.entries.countP (fun e => decide (e.id = c.id)) :=
          List.countP_pos_iff.mpr ⟨x, hx, by simp [hxx]⟩
        omega)

/-- Witness for C4 at a concrete state and entry. -/
theorem addRealtimeEntry_dedup_witness :
    ((addRealtimeEntry (addRealtimeEntry exState exConfirmed) exConfirmed).entries.countP
        (fun e => decide (e.id = exConfirmed.id)) = 1) :=
  (addRealtimeEntry_dedup exState exConfirmed (by decide)).1

/-- Update payload accepted by the Ledger `updateEntry`
(src/stores/moodStore.ts, line 25): `Partial` over only the `level`, `category`
and `note` fields — the id and timestamp of an entry cannot be patched. -/
structure EntryPatch where
  level : Option Nat
  category : Option MoodCategory
  note : Option (Option String)
deriving DecidableEq

/-- `Object.assign(entry, updates)`: every provided field of the patch
overwrites the corresponding field of the entry. -/
def applyPatch (e : MoodEntry) (p : EntryPatch) : MoodEntry :=
  { e with
      level := p.level.getD e.level,
      category := p.category.getD e.category,
      note := p.note.getD e.note }

/-- Patches the first entry whose id equals `i` in place, embedding the
`findIndex` plus `Object.assign` of `updateEntry` (src/stores/moodStore.ts,
lines 92-99); the list is unchanged when no entry matches. -/
def updateFirstById (l : List MoodEntry) (i : String) (p : EntryPatch) :
    List MoodEntry :=
  match l with
  | [] => []
  | e :: rest => if e.id = i then applyPatch e p :: rest else e :: updateFirstById rest i p

/-- Ledger action `updateEntry` (src/stores/moodStore.ts, lines 92-99). -/
def updateEntry (s : MoodState) (i : String) (p : EntryPatch) : MoodState :=
  { s with entries := updateFirstById s.entries i p }

/-- Ledger action `deleteEntry` (src/stores/moodStore.ts, lines 101-106):
filters out every entry with the id and drops the id from pending tracking. -/
def deleteEntry (s : MoodState) (i : String) : MoodState :=
  { s with
      entries := s.entries.filter (fun e => decide (e.id ≠ i)),
      pending := mapDelete s.pending i }

/-- Ledger action `setEntries` (src/stores/moodStore.ts, lines 126-132):
bulk-replaces the entries from the server and stamps the sync time (`now`
stands for the source's `Date.now()`). -/
def setEntries (s : MoodState) (es : List MoodEntry) (now : Int) : MoodState :=
  { s with entries := es, lastSyncAt := some now, isLoading := false }

/-- Distinct-ids invariant of the Ledger: no two entries share an id. -/
abbrev distinctIds (l : List MoodEntry) : Prop := (l.map (fun e => e.id)).Nodup

theorem map_id_updateFirstById (l : List MoodEntry) (i : String) (p : EntryPatch) :
    (updateFirstById l i p).map (fun e => e.id) = l.map (fun e => e.id) := by
  induction l with
  | nil => rfl
  | cons e rest ih =>
    by_cases h : e.id = i
    · simp [updateFirstById, h, applyPatch]
    · simp [updateFirstById, h, ih]

theorem mem_ids_replaceFirstById (l : List MoodEntry) (t : String) (c : MoodEntry)
    (x : String) (hx : x ∈ (replaceFirstById l t c).map (fun e => e.id)) :
    x ∈ l.map (fun e => e.id) ∨ x = c.id := by
  induction l with
  | nil => simp [replaceFirstById] at hx
  | cons e rest ih =>
    by_cases h : e.id = t
    · simp only [replaceFirstById, if_pos h, List.map_cons, List.mem_cons] at hx
      rcases hx with hx | hx
      · exact Or.inr hx
      · exact Or.inl (List.mem_cons_of_mem _ hx)
    · simp only [replaceFirstById, if_neg h, List.map_cons, List.mem_cons] at hx
      rcases hx with hx | hx
      · exact Or.inl (by simp [hx])
      · rcases ih hx with h1 | h1
        · exact Or.inl (List.mem_cons_of_mem _ h1)
        · exact Or.inr h1

theorem distinctIds_replaceFirstById (l : List MoodEntry) (t : String) (c : MoodEntry)
    (hl : distinctIds l) (hc : ∀ e ∈ l, e.id ≠ c.id) :
    distinctIds (replaceFirstById l t c) := by
  induction l with
  | nil => exact hl
  | cons e rest ih =>
    have hl' : e.id ∉ rest.map (fun e => e.id) ∧ (rest.map (fun e => e.id)).Nodup := by
      have h0 := hl
      simp only [distinctIds, List.map_cons, List.nodup_cons] at h0
      exact h0
    by_cases h : e.id = t
    · simp only [replaceFirstById, if_pos h, distinctIds, List.map_cons, List.nodup_cons]
      refine ⟨?_, hl'.2⟩
      intro hmem
      rcases List.mem_map.mp hmem with ⟨x, hx, hxid⟩
      exact hc x (List.mem_cons_of_mem e hx) hxid
    · simp only [replaceFirstById, if_neg h, distinctIds, List.map_cons, List.nodup_cons]
      refine ⟨?_, ih hl'.2 (fun x hx => hc x (List.mem_cons_of_mem e hx))⟩
      intro hmem
      rcases mem_ids_replaceFirstById rest t c e.id hmem with h1 | h1
      · exact hl'.1 h1
      · exact hc e (by simp) h1

theorem distinctIds_filter (l : List MoodEntry) (p : MoodEntry → Bool)
    (hl : distinctIds l) : distinctIds (l.filter p) :=
  List.Nodup.sublist (List.Sublist.map (fun e => e.id) (List.filter_sublist l)) hl

/-- C10 counterexample: starting from a Ledger with distinct ids that holds the
pending entry `temp-u1`, ingesting the server-confirmed entry through
`addRealtimeEntry` (the realtime `mood:created` delivery) and then confirming
the pending entry with that same confirmed entry leaves two entries with id
`srv-1`: `confirmEntry` replaces the temporary entry without checking whether
the confirmed id is already present. -/
theorem confirmEntry_duplicate_id_cex :
    distinctIds exStateP.entries
      ∧ distinctIds ((addRealtimeEntry exStateP exConfirmed).entries)
      ∧ ¬ distinctIds ((confirmEntry (addRealtimeEntry exStateP exConfirmed)
            "temp-u1" exConfirmed).entries) := by
  decide

/-- C10 (amended): every Ledger action preserves the distinct-ids invariant —
`addEntry` under freshness of its generated temporary id, `setEntries` on an
input with pairwise-distinct ids, and `confirmEntry` only under the additional
hypothesis that the confirmed entry's id is not already present among the
entries (without that hypothesis the invariant can break, see the
counterexample). -/
theorem actions_preserve_distinct_ids (s : MoodState) (hinv : distinctIds s.entries) :
    (∀ u category level note now, (∀ e ∈ s.entries, e.id ≠ "temp-" ++ u) →
        distinctIds ((addEntry s u category level note now).1.entries))
      ∧ (∀ i p, distinctIds ((updateEntry s i p).entries))
      ∧ (∀ i, distinctIds ((deleteEntry s i).entries))
      ∧ (∀ t c, (∀ e ∈ s.entries, e.id ≠ c.id) →
          distinctIds ((confirmEntry s t c).entries))
      ∧ (∀ t msg, distinctIds ((rejectEntry s t msg).entries))
      ∧ (∀ c, distinctIds ((addRealtimeEntry s c).entries))
      ∧ (∀ es now, distinctIds es → distinctIds ((setEntries s es now).entries)) := by
  refine ⟨?_, ?_, ?_, ?_, ?_, ?_, ?_⟩
  · intro u category level note now hfresh
    show distinctIds (MoodEntry.mk ("temp-" ++ u) level category note now :: s.entries)
    simp only [distinctIds, List.map_cons, List.nodup_cons]
    refine ⟨?_, hinv⟩
    intro hmem
    rcases List.mem_map.mp hmem with ⟨x, hx, hxid⟩
    exact hfresh x hx hxid
  · intro i p
    show distinctIds (updateFirstById s.entries i p)
    simpa only [distinctIds, map_id_updateFirstById] using hinv
  · intro i
    exact distinctIds_filter _ _ hinv
  · intro t c hc
    exact distinctIds_replaceFirstById s.entries t c hinv hc
  · intro t msg
    exact distinctIds_filter _ _ hinv
  · intro c
    by_cases hin : s.entries.any (fun e => decide (e.id = c.id)) = true
    · simpa only [addRealtimeEntry, if_pos hin] using hinv
    · have hent : (addRealtimeEntry s c).entries = c :: s.entries := by
        simp only [addRealtimeEntry, if_neg hin]
      rw [hent]
      simp only [distinctIds, List.map_cons, List.nodup_cons]
      refine ⟨?_, hinv⟩
      intro hmem
      rcases List.mem_map.mp hmem with ⟨x, hx, hxid⟩
      exact hin (List.any_eq_true.mpr ⟨x, hx, by simp [hxid]⟩)
  · intro es now hes
    exact hes

/-- Example confirmed entry whose id is absent from `exStateP`. -/
def exConfirmedFresh : MoodEntry := ⟨"srv-9", 4, MoodCategory.happy, none, 100⟩

/-- Witness for the amended C10 at a concrete state, applying the
`confirmEntry` conjunct with its presence hypothesis discharged. -/
theorem actions_preserve_distinct_ids_witness :
    distinctIds ((confirmEntry exStateP "temp-u1" exConfirmedFresh).entries) :=
  ((actions_preserve_distinct_ids exStateP (by decide)).2.2.2.1) "temp-u1"
    exConfirmedFresh (by decide)

/-- Realtime event types (`RealtimeEventType` in src/types/index.ts). -/
inductive RealtimeEventType
  | created
  | updated
  | deleted
  | syncComplete
deriving DecidableEq

/-- A realtime event (`RealtimeEvent` in src/types/index.ts).  The payload is
the affected entry for create/update events and only the removed id for delete
events; the Event Bus itself never inspects it. -/
structure RealtimeEvent where
  type : RealtimeEventType
  payload : Option MoodEntry
  timestamp : Int
deriving DecidableEq

/-- Embeds `mockEventEmitter.emit` (src/api/mockServer.ts, lines 56-58):
`eventListeners.forEach(cb => cb(event))`.  The listener set iterates in
insertion order (JS `Set` semantics), modelled as a list of tagged callbacks;
a callback either returns or throws, modelled with `Except`.  `forEach` applies
the callbacks in order with no try/catch around `cb(event)`, so a thrown
exception aborts the iteration and propagates to the caller of `emit`.  The
result records, in order, the tags of the callbacks that were invoked, paired
with the propagated exception message if any. -/
def emitTrace {ε : Type} (listeners : List (Nat × (ε → Except String Unit)))
    (event : ε) : List Nat × Option String :=
  match listeners with
  | [] => ([], none)
  | (i, cb) :: rest =>
    match cb event with
    | Except.error msg => ([i], some msg)
    | Except.ok _ =>
      let r := emitTrace rest event
      (i :: r.1, r.2)

/-- A listener that returns normally. -/
def okListener : RealtimeEvent → Except String Unit := fun _ => Except.ok ()

/-- A listener that throws. -/
def throwListener : RealtimeEvent → Except String Unit :=
  fun _ => Except.error "listener failure"

/-- Example event used by the Event Bus counterexample and witness. -/
def exEvent : RealtimeEvent := ⟨RealtimeEventType.created, none, 100⟩

/-- C1 counterexample: with two registered listeners of which the first throws,
`emit` invokes only the first — listener 1 is active yet never invoked, and the
exception propagates — so a throwing listener does prevent the remaining
listeners from being invoked: failures are not isolated per listener. -/
theorem emit_throw_blocks_rest_cex :
    (emitTrace [(0, throwListener), (1, okListener)] exEvent).1 = [0]
      ∧ 1 ∉ (emitTrace [(0, throwListener), (1, okListener)] exEvent).1
      ∧ (emitTrace [(0, throwListener), (1, okListener)] exEvent).2
          = some "listener failure" := by
  refine ⟨rfl, ?_, rfl⟩
  decide

/-- C1 (amended): `emit` invokes the listeners synchronously in registration
order up to and including the first one that throws; when no listener throws
every active listener is invoked and no exception escapes, and when a listener
throws, the listeners registered after it are not invoked and its exception
propagates to the publisher. -/
theorem emit_invokes_until_first_throw {ε : Type} (event : ε) :
    (∀ listeners : List (Nat × (ε → Except String Unit)),
        (∀ p ∈ listeners, p.2 event = Except.ok ()) →
        emitTrace listeners event = (listeners.map Prod.fst, none))
      ∧ (∀ (pre post : List (Nat × (ε → Except String Unit))) (i : Nat)
            (cb : ε → Except String Unit) (msg : String),
          (∀ p ∈ pre, p.2 event = Except.ok ()) → cb event = Except.error msg →
          emitTrace (pre ++ (i, cb) :: post) event = (pre.map Prod.fst ++ [i], some msg)) := by
  constructor
  · intro listeners hok
    induction listeners with
    | nil => rfl
    | cons p rest ih =>
      obtain ⟨i, cb⟩ := p
      have hcb : cb event = Except.ok () := hok (i, cb) (by simp)
      simp only [emitTrace, hcb, List.map_cons]
      rw [ih (fun q hq => hok q (by simp [hq]))]
  · intro pre post i cb msg hok hcb
    induction pre with
    | nil =>
      simp only [List.nil_append, emitTrace, hcb, List.map_nil]
    | cons p rest ih =>
      obtain ⟨j, dcb⟩ := p
      have hd : dcb event = Except.ok () := hok (j, dcb) (by simp)
      have ih2 := ih (fun q hq => hok q (by simp [hq]))
      calc emitTrace (((j, dcb) :: rest) ++ (i, cb) :: post) event
          = (j :: (emitTrace (rest ++ (i, cb) :: post) event).1,
             (emitTrace (rest ++ (i, cb) :: post) event).2) := by
            show emitTrace ((j, dcb) :: (rest ++ (i, cb) :: post)) event = _
            simp only [emitTrace, hd]
        _ = (List.map Prod.fst ((j, dcb) :: rest) ++ [i], some msg) := by
            rw [ih2]
            rfl

/-- Witness for the amended C1: a concrete all-ok listener list is fully
invoked, and a concrete list whose second listener throws is invoked up to
that listener. -/
theorem emit_invokes_until_first_throw_witness :
    emitTrace [(0, okListener), (1, okListener)] exEvent = ([0, 1], none)
      ∧ emitTrace [(0, okListener), (1, throwListener), (2, okListener)] exEvent
          = ([0, 1], some "listener failure") := by
  constructor
  · exact (emit_invokes_until_first_throw exEvent).1
      [(0, okListener), (1, okListener)] (by simp [List.forall_mem_cons, okListener])
  · exact (emit_invokes_until_first_throw exEvent).2
      [(0, okListener)] [(2, okListener)] 1 throwListener "listener failure"
      (by simp [List.forall_mem_cons, okListener]) rfl

/-- Query filter (`MoodFilter` in src/types/index.ts): all fields optional. -/
structure MoodFilter where
  startDate : Option Int
  endDate : Option Int
  categories : Option (List MoodCategory)
  levels : Option (List Nat)
deriving DecidableEq

/-- Descending-timestamp ordering: entry `a` sorts no later than entry `b` when
its timestamp is at least `b`'s — the order induced by the source comparator
`(a, b) => b.timestamp - a.timestamp`. -/
def tsGE (a b : MoodEntry) : Prop := b.timestamp ≤ a.timestamp

instance : DecidableRel tsGE :=
  fun a b => inferInstanceAs (Decidable (b.timestamp ≤ a.timestamp))

instance : IsTotal MoodEntry tsGE :=
  ⟨fun a b => Int.le_total b.timestamp a.timestamp⟩

instance : IsTrans MoodEntry tsGE :=
  ⟨fun _ _ _ h1 h2 => le_trans h2 h1⟩

/-- Embeds `moods.sort((a, b) => b.timestamp - a.timestamp)`: a stable
comparison sort in descending timestamp order. -/
def sortByTimestampDesc (l : List MoodEntry) : List MoodEntry :=
  List.insertionSort tsGE l

/-- First filter step of `getAll` (src/api/mockServer.ts, lines 70-72).  The
guard `if (filter?.startDate)` is JavaScript truthiness: it is false when
`startDate` is absent or 0, so a zero `startDate` applies no constraint. -/
def applyStartFilter (f : MoodFilter) (l : List MoodEntry) : List MoodEntry :=
  match f.startDate with
  | some s => if s = 0 then l else l.filter (fun e => decide (s ≤ e.timestamp))
  | none => l

/-- Second filter step of `getAll` (lines 73-75); `if (filter?.endDate)` is
false when `endDate` is absent or 0. -/
def applyEndFilter (f : MoodFilter) (l : List MoodEntry) : List MoodEntry :=
  match f.endDate with
  | some t => if t = 0 then l else l.filter (fun e => decide (e.timestamp ≤ t))
  | none => l

/-- Third filter step of `getAll` (lines 76-78); `if (filter?.categories?.length)`
is false when `categories` is absent or empty; membership embeds
`filter.categories.includes(m.category)`. -/
def applyCategoryFilter (f : MoodFilter) (l : List MoodEntry) : List MoodEntry :=
  match f.categories with
  | some cs => if cs.isEmpty then l else l.filter (fun e => decide (e.category ∈ cs))
  | none => l

/-- Fourth filter step of `getAll` (lines 79-81); `if (filter?.levels?.length)`
is false when `levels` is absent or empty. -/
def applyLevelFilter (f : MoodFilter) (l : List MoodEntry) : List MoodEntry :=
  match f.levels with
  | some ls => if ls.isEmpty then l else l.filter (fun e => decide (e.level ∈ ls))
  | none => l

/-- Embeds `mockServer.moods.getAll` (src/api/mockServer.ts, lines 64-95): the
four sequential filter reassignments followed by the descending sort.  The
surrounding pagination envelope (total/page/hasMore) and the artificial delay
are not modelled. -/
def getAll (db : List MoodEntry) (f : MoodFilter) : List MoodEntry :=
  sortByTimestampDesc
    (applyLevelFilter f (applyCategoryFilter f (applyEndFilter f (applyStartFilter f db))))

/-- The per-entry predicate actually applied by the first filter step. -/
def startPred (f : MoodFilter) (e : MoodEntry) : Bool :=
  match f.startDate with
  | some s => if s = 0 then true else decide (s ≤ e.timestamp)
  | none => true

/-- The per-entry predicate actually applied by the second filter step. -/
def endPred (f : MoodFilter) (e : MoodEntry) : Bool :=
  match f.endDate with
  | some t => if t = 0 then true else decide (e.timestamp ≤ t)
  | none => true

/-- The per-entry predicate actually applied by the third filter step. -/
def catPred (f : MoodFilter) (e : MoodEntry) : Bool :=
  match f.categories with
  | some cs => if cs.isEmpty then true else decide (e.category ∈ cs)
  | none => true

/-- The per-entry predicate actually applied by the fourth filter step. -/
def levelPred (f : MoodFilter) (e : MoodEntry) : Bool :=
  match f.levels with
  | some ls => if ls.isEmpty then true else decide (e.level ∈ ls)
  | none => true

/-- Conjunction of the four per-entry predicates applied by `getAll`. -/
def matchesFilter (f : MoodFilter) (e : MoodEntry) : Bool :=
  startPred f e && endPred f e && catPred f e && levelPred f e

/-- Written from the words of claim C5 and the Query Filter section of the
spec, not from the source: every present field constrains the entry
conjunctively — timestamp at least `startDate` when present, at most `endDate`
when present, category a member of the categories set when present, level a
member of the levels set when present. -/
def specMatchesFilter (f : MoodFilter) (e : MoodEntry) : Bool :=
  (match f.startDate with
   | some s => decide (s ≤ e.timestamp)
   | none => true)
    && (match f.endDate with
        | some t => decide (e.timestamp ≤ t)
        | none => true)
    && (match f.categories with
        | some cs => decide (e.category ∈ cs)
        | none => true)
    && (match f.levels with
        | some ls => decide (e.level ∈ ls)
        | none => true)

theorem applyStartFilter_eq (f : MoodFilter) (l : List MoodEntry) :
    applyStartFilter f l = l.filter (startPred f) := by
  cases hs : f.startDate with
  | none =>
    simp only [applyStartFilter, hs]
    exact (List.filter_eq_self.mpr (fun e _ => by simp [startPred, hs])).symm
  | some s =>
    by_cases h0 : s = 0
    · simp only [applyStartFilter, hs, if_pos h0]
      exact (List.filter_eq_self.mpr (fun e _ => by simp [startPred, hs, h0])).symm
    · simp only [applyStartFilter, hs, if_neg h0]
      exact List.filter_congr (fun e _ => by simp [startPred, hs, h0])

theorem applyEndFilter_eq (f : MoodFilter) (l : List MoodEntry) :
    applyEndFilter f l = l.filter (endPred f) := by
  cases hs : f.endDate with
  | none =>
    simp only [applyEndFilter, hs]
    exact (List.filter_eq_self.mpr (fun e _ => by simp [endPred, hs])).symm
  | some t =>
    by_cases h0 : t = 0
    · simp only [applyEndFilter, hs, if_pos h0]
      exact (List.filter_eq_self.mpr (fun e _ => by simp [endPred, hs, h0])).symm
    · simp only [applyEndFilter, hs, if_neg h0]
      exact List.filter_congr (fun e _ => by simp [endPred, hs, h0])

theorem applyCategoryFilter_eq (f : MoodFilter) (l : List MoodEntry) :
    applyCategoryFilter f l = l.filter (catPred f) := by
  cases hs : f.categories with
  | none =>
    simp only [applyCategoryFilter, hs]
    exact (List.filter_eq_self.mpr (fun e _ => by simp [catPred, hs])).symm
  | some cs =>
    by_cases h0 : cs.isEmpty
    · simp only [applyCategoryFilter, hs, if_pos h0]
      exact (List.filter_eq_self.mpr (fun e _ => by simp [catPred, hs, h0])).symm
    · simp only [applyCategoryFilter, hs, if_neg h0]
      exact List.filter_congr (fun e _ => by simp [catPred, hs, h0])

theorem applyLevelFilter_eq (f : MoodFilter) (l : List MoodEntry) :
    applyLevelFilter f l = l.filter (levelPred f) := by
  cases hs : f.levels with
  | none =>
    simp only [applyLevelFilter, hs]
    exact (List.filter_eq_self.mpr (fun e _ => by simp [levelPred, hs])).symm
  | some ls =>
    by_cases h0 : ls.isEmpty
    · simp only [applyLevelFilter, hs, if_pos h0]
      exact (List.filter_eq_self.mpr (fun e _ => by simp [levelPred, hs, h0])).symm
    · simp only [applyLevelFilter, hs, if_neg h0]
      exact List.filter_congr (fun e _ => by simp [levelPred, hs, h0])

theorem applyFilters_eq (f : MoodFilter) (db : List MoodEntry) :
    applyLevelFilter f (applyCategoryFilter f (applyEndFilter f (applyStartFilter f db)))
      = db.filter (matchesFilter f) := by
  rw [applyStartFilter_eq, applyEndFilter_eq, applyCategoryFilter_eq, applyLevelFilter_eq,
    List.filter_filter, List.filter_filter, List.filter_filter]
  refine List.filter_congr ?_
  intro e _
  simp only [matchesFilter]
  cases startPred f e <;> cases endPred f e <;> cases catPred f e <;> cases levelPred f e <;> rfl

/-- Entry with a positive timestamp, for the C5 counterexample. -/
def exC5Entry : MoodEntry := ⟨"c5", 3, MoodCategory.calm, none, 100⟩

/-- Filter with a present `endDate` of 0 and a present empty categories set. -/
def exC5Filter : MoodFilter := ⟨none, some 0, some [], none⟩

/-- C5 counterexample: with `endDate = 0` present and an empty categories set
present, `getAll` returns the timestamp-100 entry even though it satisfies
neither `timestamp ≤ endDate` nor membership in the (empty) categories set —
the JavaScript truthiness guards skip falsy filter fields, so the output is
not the set of entries satisfying all present fields. -/
theorem getAll_spec_filter_cex :
    getAll [exC5Entry] exC5Filter = [exC5Entry]
      ∧ specMatchesFilter exC5Filter exC5Entry = false := by
  exact ⟨by decide, by decide⟩

/-- Example filter of the claim: categories {happy}, levels {4, 5}. -/
def happyFilter : MoodFilter :=
  ⟨none, none, some [MoodCategory.happy], some [4, 5]⟩

/-- C5 (amended): `getAll` returns exactly (up to the descending sort) the
entries passing every effective filter field conjunctively, where a field is
effective when present and truthy — a nonzero date bound, a nonempty
category/level set — and the result is sorted descending by timestamp; in
particular with categories {happy} and levels {4, 5} every returned entry is
happy with level 4 or 5. -/
theorem getAll_conjunctive_filter_sorted (db : List MoodEntry) (f : MoodFilter) :
    (getAll db f).Perm (db.filter (matchesFilter f))
      ∧ (getAll db f).Pairwise (fun a b => b.timestamp ≤ a.timestamp)
      ∧ (∀ e ∈ getAll db happyFilter,
          e.category = MoodCategory.happy ∧ (e.level = 4 ∨ e.level = 5)) := by
  refine ⟨?_, ?_, ?_⟩
  · rw [getAll, applyFilters_eq]
    exact List.perm_insertionSort tsGE _
  · exact List.sorted_insertionSort tsGE _
  · intro e he
    have hperm : (getAll db happyFilter).Perm (db.filter (matchesFilter happyFilter)) := by
      rw [getAll, applyFilters_eq]
      exact List.perm_insertionSort tsGE _
    have he2 := hperm.mem_iff.mp he
    have hm := (List.mem_filter.mp he2).2
    simp only [matchesFilter] at hm
    rw [Bool.and_eq_true, Bool.and_eq_true, Bool.and_eq_true] at hm
    constructor
    · simpa [catPred, happyFilter] using hm.1.2
    · simpa [levelPred, happyFilter] using hm.2

/-- Example database for the C5 witness. -/
def exC5db : List MoodEntry :=
  [⟨"h4", 4, MoodCategory.happy, none, 10⟩,
   ⟨"c3", 3, MoodCategory.calm, none, 20⟩,
   ⟨"h2", 2, MoodCategory.happy, none, 30⟩]

/-- Witness for the amended C5 at a concrete database and filter. -/
theorem getAll_conjunctive_filter_sorted_witness :
    (getAll exC5db happyFilter).Perm (exC5db.filter (matchesFilter happyFilter))
      ∧ (getAll exC5db happyFilter).Pairwise (fun a b => b.timestamp ≤ a.timestamp) :=
  ⟨(getAll_conjunctive_filter_sorted exC5db happyFilter).1,
   (getAll_conjunctive_filter_sorted exC5db happyFilter).2.1⟩

/-- Embeds `mockServer.moods.getToday` (src/api/mockServer.ts, lines 187-203).
The source computes `startOfDay` as the local midnight of the current day via
`new Date(year, month, date)` and `endOfDay` as `startOfDay + 24*60*60*1000 - 1`;
the environment-dependent local-midnight timestamp is the parameter here. -/
def getToday (db : List MoodEntry) (startOfDay : Int) : List MoodEntry :=
  let endOfDay := startOfDay + 24 * 60 * 60 * 1000 - 1
  sortByTimestampDesc
    (db.filter (fun m =>
      decide (startOfDay ≤ m.timestamp) && decide (m.timestamp ≤ endOfDay)))

theorem getToday_unfold (db : List MoodEntry) (startOfDay : Int) :
    getToday db startOfDay = List.insertionSort tsGE
      (db.filter (fun m =>
        decide (startOfDay ≤ m.timestamp)
          && decide (m.timestamp ≤ startOfDay + 24 * 60 * 60 * 1000 - 1))) := rfl

/-- C6: `getToday` returns exactly the stored entries whose timestamp lies in
the inclusive local-day window `[startOfDay, startOfDay + 86399999]`, sorted
descending by timestamp; an entry stamped at the last millisecond of the day
(`startOfDay + 86399999`, i.e. 23:59:59.999) is included and one stamped at the
next midnight (`startOfDay + 86400000`) is excluded. -/
theorem getToday_day_boundary (db : List MoodEntry) (startOfDay : Int) :
    (∀ e, e ∈ getToday db startOfDay ↔
        e ∈ db ∧ startOfDay ≤ e.timestamp ∧ e.timestamp ≤ startOfDay + 86399999)
      ∧ (getToday db startOfDay).Pairwise (fun a b => b.timestamp ≤ a.timestamp)
      ∧ (∀ e ∈ db, e.timestamp = startOfDay + 86399999 → e ∈ getToday db startOfDay)
      ∧ (∀ e, e.timestamp = startOfDay + 86400000 → e ∉ getToday db startOfDay) := by
  have hmem : ∀ e, e ∈ getToday db startOfDay ↔
      e ∈ db ∧ startOfDay ≤ e.timestamp ∧ e.timestamp ≤ startOfDay + 86399999 := by
    intro e
    rw [getToday_unfold]
    constructor
    · intro he
      have h1 := (List.perm_insertionSort tsGE _).mem_iff.mp he
      have h2 := List.mem_filter.mp h1
      have h3 := h2.2
      rw [Bool.and_eq_true, decide_eq_true_eq, decide_eq_true_eq] at h3
      exact ⟨h2.1, h3.1, by omega⟩
    · intro hh
      obtain ⟨hdb, hlo, hhi⟩ := hh
      apply (List.perm_insertionSort tsGE _).mem_iff.mpr
      apply List.mem_filter.mpr
      refine ⟨hdb, ?_⟩
      rw [Bool.and_eq_true, decide_eq_true_eq, decide_eq_true_eq]
      exact ⟨hlo, by omega⟩
  refine ⟨hmem, ?_, ?_, ?_⟩
  · rw [getToday_unfold]
    exact List.sorted_insertionSort tsGE _
  · intro e hdb hts
    exact (hmem e).mpr ⟨hdb, by omega, by omega⟩
  · intro e hts he
    have := ((hmem e).mp he).2.2
    omega

/-- Database with one entry at the last millisecond of the (UTC-zero) day and
one at the following midnight, for the C6 witness. -/
def exC6db : List MoodEntry :=
  [⟨"in1", 3, MoodCategory.calm, none, 86399999⟩,
   ⟨"out1", 3, MoodCategory.calm, none, 86400000⟩]

/-- Witness for C6: with local midnight at 0, the 23:59:59.999 entry is
returned and the next-midnight entry is not. -/
theorem getToday_day_boundary_witness :
    (⟨"in1", 3, MoodCategory.calm, none, 86399999⟩ : MoodEntry) ∈ getToday exC6db 0
      ∧ (⟨"out1", 3, MoodCategory.calm, none, 86400000⟩ : MoodEntry) ∉ getToday exC6db 0 :=
  ⟨(getToday_day_boundary exC6db 0).2.2.1 _ (by decide) (by decide),
   (getToday_day_boundary exC6db 0).2.2.2 _ (by decide)⟩

/-- One `forEach` step of the per-category tally in `getStats`:
`byCategory[m.category] = (byCategory[m.category] || 0) + 1`, with the
`Record<string, number>` embedded as an association list in key-insertion
order (the enumeration order of a JS object's string keys). -/
def bumpCategory (acc : List (MoodCategory × Nat)) (c : MoodCategory) :
    List (MoodCategory × Nat) :=
  match acc with
  | [] => [(c, 1)]
  | (k, n) :: rest => if k = c then (k, n + 1) :: rest else (k, n) :: bumpCategory rest c

/-- Result record of `getStats`. -/
structure MoodStats where
  average : Rat
  count : Nat
  byCategory : List (MoodCategory × Nat)
deriving DecidableEq

/-- Embeds `mockServer.moods.getStats` (src/api/mockServer.ts, lines 205-229):
filters to the inclusive timestamp range, tallies entries per category, sums
the levels, and computes the average with the guard
`moods.length ? total / moods.length : 0`. -/
def getStats (db : List MoodEntry) (startDate endDate : Int) : MoodStats :=
  let moods := db.filter (fun m =>
    decide (startDate ≤ m.timestamp) && decide (m.timestamp ≤ endDate))
  let total : Nat := (moods.map (fun m => m.level)).sum
  { average := if moods.length = 0 then 0 else (total : Rat) / (moods.length : Rat),
    count := moods.length,
    byCategory := moods.foldl (fun acc m => bumpCategory acc m.category) [] }

/-- C7: on a range matching no stored entry, `getStats` returns average 0,
count 0 and an empty per-category breakdown; the division is guarded by the
length test and is never taken. -/
theorem getStats_empty_range (db : List MoodEntry) (startDate endDate : Int)
    (h : ∀ m ∈ db, ¬ (startDate ≤ m.timestamp ∧ m.timestamp ≤ endDate)) :
    getStats db startDate endDate = { average := 0, count := 0, byCategory := [] } := by
  have hnil : db.filter (fun m =>
      decide (startDate ≤ m.timestamp) && decide (m.timestamp ≤ endDate)) = [] := by
    apply List.filter_eq_nil_iff.mpr
    intro m hm
    simp only [Bool.and_eq_true, decide_eq_true_eq]
    exact h m hm
  simp only [getStats, hnil]
  rfl

/-- Witness for C7: the example store's single entry (timestamp 50) matches no
part of the range [100, 200]. -/
theorem getStats_empty_range_witness :
    getStats exState.entries 100 200 = { average := 0, count := 0, byCategory := [] } :=
  getStats_empty_range exState.entries 100 200 (by decide)

/-- Partial-update payload accepted by the server update
(src/api/mockServer.ts, line 137): `Partial<MoodEntry>` — any field may be
overwritten. -/
structure ServerPatch where
  id : Option String
  level : Option Nat
  category : Option MoodCategory
  note : Option (Option String)
  timestamp : Option Int
deriving DecidableEq

/-- Spread merge `{ ...stored, ...updates }`: provided fields overwrite. -/
def applyServerPatch (m : MoodEntry) (p : ServerPatch) : MoodEntry :=
  { id := p.id.getD m.id,
    level := p.level.getD m.level,
    category := p.category.getD m.category,
    note := p.note.getD m.note,
    timestamp := p.timestamp.getD m.timestamp }

/-- Embeds `mockServer.moods.getById` (src/api/mockServer.ts, lines 97-110):
find the entry by id, throwing `Mood not found` when absent. -/
def getById (db : List MoodEntry) (i : String) : Except String MoodEntry :=
  match db.find? (fun m => decide (m.id = i)) with
  | some m => Except.ok m
  | none => Except.error "Mood not found"

/-- Replaces the first entry carrying the id by its patched version, `none`
when no entry matches — the `findIndex` / `index === -1` test of the server
update (src/api/mockServer.ts, lines 140-143). -/
def updateById (l : List MoodEntry) (i : String) (p : ServerPatch) :
    Option (List MoodEntry × MoodEntry) :=
  match l with
  | [] => none
  | e :: rest =>
    if e.id = i then some (applyServerPatch e p :: rest, applyServerPatch e p)
    else (updateById rest i p).map (fun r => (e :: r.1, r.2))

/-- Embeds `mockServer.moods.update` (src/api/mockServer.ts, lines 137-160):
on a missing id the `Mood not found` error is thrown before any mutation or
persistence, so the database component comes back unchanged; otherwise the
merged entry replaces the stored one and is returned. -/
def serverUpdate (db : List MoodEntry) (i : String) (p : ServerPatch) :
    Except String MoodEntry × List MoodEntry :=
  match updateById db i p with
  | some r => (Except.ok r.2, r.1)
  | none => (Except.error "Mood not found", db)

/-- Removes the first entry carrying the id (`splice(index, 1)`), `none` when
no entry matches. -/
def removeById (l : List MoodEntry) (i : String) : Option (List MoodEntry) :=
  match l with
  | [] => none
  | e :: rest =>
    if e.id = i then some rest
    else (removeById rest i).map (fun r => e :: r)

/-- Embeds `mockServer.moods.delete` (src/api/mockServer.ts, lines 162-185):
on a missing id the error is thrown before the splice and persistence, so the
database comes back unchanged. -/
def serverDelete (db : List MoodEntry) (i : String) :
    Except String Unit × List MoodEntry :=
  match removeById db i with
  | some db2 => (Except.ok (), db2)
  | none => (Except.error "Mood not found", db)

theorem updateById_eq_none_iff (l : List MoodEntry) (i : String) (p : ServerPatch) :
    updateById l i p = none ↔ ∀ m ∈ l, m.id ≠ i := by
  induction l with
  | nil => simp [updateById]
  | cons e rest ih =>
    by_cases h : e.id = i
    · simp [updateById, h, List.forall_mem_cons]
    · simp [updateById, h, ih, List.forall_mem_cons]

theorem removeById_eq_none_iff (l : List MoodEntry) (i : String) :
    removeById l i = none ↔ ∀ m ∈ l, m.id ≠ i := by
  induction l with
  | nil => simp [removeById]
  | cons e rest ih =>
    by_cases h : e.id = i
    · simp [removeById, h, List.forall_mem_cons]
    · simp [removeById, h, ih, List.forall_mem_cons]

/-- C8: `getById`, `serverUpdate` and `serverDelete` signal the not-found
failure exactly when no stored entry carries the requested id, and on that
failure the update and delete leave the Record Store unchanged (the error is
thrown before any mutation or persistence). -/
theorem server_notFound_iff (db : List MoodEntry) (i : String) (p : ServerPatch) :
    ((∃ msg, getById db i = Except.error msg) ↔ ∀ m ∈ db, m.id ≠ i)
      ∧ ((∃ msg, (serverUpdate db i p).1 = Except.error msg) ↔ ∀ m ∈ db, m.id ≠ i)
      ∧ ((∃ msg, (serverDelete db i).1 = Except.error msg) ↔ ∀ m ∈ db, m.id ≠ i)
      ∧ ((∀ m ∈ db, m.id ≠ i) →
          (serverUpdate db i p).2 = db ∧ (serverDelete db i).2 = db) := by
  refine ⟨?_, ?_, ?_, ?_⟩
  · constructor
    · intro hex
      obtain ⟨msg, hmsg⟩ := hex
      cases hf : db.find? (fun m => decide (m.id = i)) with
      | some m => simp [getById, hf] at hmsg
      | none =>
        intro m hm
        have := List.find?_eq_none.mp hf m hm
        simpa using this
    · intro hall
      have hf : db.find? (fun m => decide (m.id = i)) = none :=
        List.find?_eq_none.mpr (fun x hx => by simpa using hall x hx)
      exact ⟨"Mood not found", by simp [getById, hf]⟩
  · rw [← updateById_eq_none_iff db i p]
    constructor
    · intro hex
      obtain ⟨msg, hmsg⟩ := hex
      cases hu : updateById db i p with
      | some r => simp [serverUpdate, hu] at hmsg
      | none => rfl
    · intro hnone
      exact ⟨"Mood not found", by simp [serverUpdate, hnone]⟩
  · rw [← removeById_eq_none_iff db i]
    constructor
    · intro hex
      obtain ⟨msg, hmsg⟩ := hex
      cases hr : removeById db i with
      | some r => simp [serverDelete, hr] at hmsg
      | none => rfl
    · intro hnone
      exact ⟨"Mood not found", by simp [serverDelete, hnone]⟩
  · intro hall
    constructor
    · have hnone := (updateById_eq_none_iff db i p).mpr hall
      simp [serverUpdate, hnone]
    · have hnone := (removeById_eq_none_iff db i).mpr hall
      simp [serverDelete, hnone]

/-- Patch raising the level to 5, for the C8 witness. -/
def exPatch : ServerPatch := ⟨none, some 5, none, none, none⟩

/-- Witness for C8 at a concrete store and an absent id. -/
theorem server_notFound_iff_witness :
    (∃ msg, getById exState.entries "zz" = Except.error msg)
      ∧ (serverUpdate exState.entries "zz" exPatch).2 = exState.entries
      ∧ (serverDelete exState.entries "zz").2 = exState.entries :=
  ⟨(server_notFound_iff exState.entries "zz" exPatch).1.mpr (by decide),
   ((server_notFound_iff exState.entries "zz" exPatch).2.2.2 (by decide)).1,
   ((server_notFound_iff exState.entries "zz" exPatch).2.2.2 (by decide)).2⟩

/-- Creation payload of the server create (`Omit<MoodEntry, 'id'>`). -/
structure NewMoodData where
  level : Nat
  category : MoodCategory
  note : Option String
  timestamp : Int
deriving DecidableEq

/-- Embeds `mockServer.moods.create` (src/api/mockServer.ts, lines 112-135):
assigns the freshly generated uuid `u` as the permanent id and unshifts the
new entry onto the store; persistence and the emitted `mood:created` event are
outside this definition. -/
def serverCreate (db : List MoodEntry) (u : String) (d : NewMoodData) :
    List MoodEntry × MoodEntry :=
  let newMood : MoodEntry := ⟨u, d.level, d.category, d.note, d.timestamp⟩
  (newMood :: db, newMood)

/-- Reserved-prefix test: whether the id begins with the five characters of
`temp-`. -/
def isTempId (s : String) : Bool := decide (s.data.take 5 = "temp-".data)

/-- Character alphabet of a version-4 uuid: hexadecimal digits and dashes. -/
def isUuidChar (c : Char) : Bool :=
  c.isDigit || (decide ('a' ≤ c) && decide (c ≤ 'f'))
    || (decide ('A' ≤ c) && decide (c ≤ 'F')) || decide (c = '-')

/-- Shape of a uuid string as produced by the uuid library's v4 generator: 36
characters drawn from hexadecimal digits and dashes. -/
def isUuidString (s : String) : Bool :=
  decide (s.length = 36) && s.data.all isUuidChar

/-- C9: every temporary id generated by the Ledger's `addEntry` begins with the
reserved `temp-` prefix, while the permanent id assigned by the Remote
Simulator's create is the generated uuid, which — being 36 hexadecimal digits
and dashes — can never begin with `temp-` (its first character cannot be `t`),
so temporary and permanent ids are always distinguishable. -/
theorem temp_ids_distinguishable (s : MoodState) (u : String)
    (category : MoodCategory) (level : Nat) (note : Option String) (now : Int)
    (db : List MoodEntry) (d : NewMoodData) (hu : isUuidString u = true) :
    isTempId (addEntry s u category level note now).2.id = true
      ∧ isTempId (serverCreate db u d).2.id = false
      ∧ isTempId u = false := by
  have hfalse : isTempId u = false := by
    rw [isUuidString, Bool.and_eq_true, decide_eq_true_eq] at hu
    obtain ⟨hlen, hall⟩ := hu
    cases hd : u.data with
    | nil =>
      exfalso
      have hdl : u.data.length = 36 := hlen
      rw [hd] at hdl
      simp at hdl
    | cons c rest =>
      have hc : isUuidChar c = true := by
        rw [hd] at hall
        rw [List.all_cons, Bool.and_eq_true] at hall
        exact hall.1
      rw [isTempId, hd]
      apply decide_eq_false
      intro heq
      have h5 : c :: rest.take 4 = ['t', 'e', 'm', 'p', '-'] := heq
      injection h5 with h1 _
      rw [h1] at hc
      exact absurd hc (by decide)
  have htrue : isTempId ("temp-" ++ u) = true := by
    have hdata : ("temp-" ++ u).data.take 5 = "temp-".data := by
      rw [String.data_append]
      rfl
    rw [isTempId, hdata]
    simp
  exact ⟨htrue, hfalse, hfalse⟩

/-- Witness for C9 at a concrete lowercase v4 uuid. -/
theorem temp_ids_distinguishable_witness :
    isTempId (addEntry exState "123e4567-e89b-42d3-a456-426614174000"
        MoodCategory.calm 3 none 100).2.id = true
      ∧ isTempId "123e4567-e89b-42d3-a456-426614174000" = false :=
  ⟨(temp_ids_distinguishable exState "123e4567-e89b-42d3-a456-426614174000"
      MoodCategory.calm 3 none 100 [] ⟨3, MoodCategory.calm, none, 100⟩ (by decide)).1,
   (temp_ids_distinguishable exState "123e4567-e89b-42d3-a456-426614174000"
      MoodCategory.calm 3 none 100 [] ⟨3, MoodCategory.calm, none, 100⟩ (by decide)).2.2⟩

end MicroMood
